import Mathlib

/-!
Verification of the USB4 retimer flashing tool (`src/usb4/src/main.rs`).

The development shallowly embeds the protocol stack of the tool:

* the GPIO configuration-word operations (`Gpio::set_mask`, `enable_rx`,
  `enable_tx`, `set_tx`, `set_pad_mode`) as pure functions on `Nat`
  configuration words (32-bit values, masking made explicit);
* the bit-banged I2C byte layer (`I2CBitbang::write_byte` / `read_byte`)
  at the level of the bit sequences exchanged on the data line;
* the SMBus block layer (`smbus_block_write` / `smbus_block_read`) over an
  abstract bus oracle that supplies the acknowledgment bit for each written
  byte and the value of each read byte, recording a trace of bus events;
* the retimer command protocol (`Retimer::command`) over an oracle giving
  the value of each successful poll of the command register;
* the firmware-update sequence (`flash_retimer`) recording a trace of
  register reads, register writes and issued commands, with the chunked
  write loop embedded faithfully (including its potentially out-of-bounds
  word assembly, modelled by an explicit failure flag).

Loops of the source are embedded as structural recursions: `for` loops
over their iteration count, `while` loops with an explicit fuel that is a
proven upper bound on the number of iterations, so that every definition
evaluates by kernel reduction.
-/

namespace Usb4

/-! ## Constants from the source -/

def IECS_CMD : Nat := 8
def IECS_DATA : Nat := 9
def MSG_OUT_RDATA : Nat := 18

def CMD_AFRR : Nat := 0x52524641
def CMD_AUTH : Nat := 0x48545541
def CMD_BLKW : Nat := 0x574b4c42
def CMD_BOPS : Nat := 0x53504f42
def CMD_PCYC : Nat := 0x43594350

/-! ## GPIO configuration words (`struct Gpio`)

A line's configuration is a 32-bit hardware register value, modelled as a
`Nat` (all masks are below `2 ^ 32`; `&= !mask` is modelled by and-ing
with the complement of the mask within 32 bits). -/

def PAD_MODE : Nat := 0b111 <<< 10
def RX_DIS : Nat := 1 <<< 9
def TX_DIS : Nat := 1 <<< 8
def RX : Nat := 1 <<< 1
def TX : Nat := 1 <<< 0

/-- All 32 bits set; `!mask` on a `u32` is `U32M ^^^ mask`. -/
def U32M : Nat := 2 ^ 32 - 1

/-- `Gpio::set_mask`: or the mask in, or and the complemented mask in. -/
def set_mask (config mask : Nat) (value : Bool) : Nat :=
  if value then config ||| mask else config &&& (U32M ^^^ mask)

/-- `Gpio::set_pad_mode(GpioPadMode::Gpio)`: clear the three mode bits,
then or in the `Gpio` mode value `0 << 10`. -/
def set_pad_mode_gpio (config : Nat) : Nat :=
  (config &&& (U32M ^^^ PAD_MODE)) ||| (0 <<< 10)

/-- `Gpio::enable_rx(value)` = `set_mask(RX_DIS, !value)`. -/
def enable_rx (config : Nat) (value : Bool) : Nat := set_mask config RX_DIS (!value)

/-- `Gpio::enable_tx(value)` = `set_mask(TX_DIS, !value)`. -/
def enable_tx (config : Nat) (value : Bool) : Nat := set_mask config TX_DIS (!value)

/-- `Gpio::set_tx(value)` = `set_mask(TX, value)`. -/
def set_tx (config : Nat) (value : Bool) : Nat := set_mask config TX value

/-- The reconfiguration `I2CBitbang::new` applies to each line:
`enable_rx(true); enable_tx(false); set_tx(false); set_pad_mode(Gpio)`. -/
def initLine (config : Nat) : Nat :=
  set_pad_mode_gpio (set_tx (enable_tx (enable_rx config true) false) false)

/-- The configuration state of `struct I2CBitbang`: the two live line
configurations and the two captured pre-construction configurations. -/
structure I2CBitbangS where
  scl : Nat
  scl_config : Nat
  sda : Nat
  sda_config : Nat
deriving DecidableEq

/-- `I2CBitbang::new`: capture each line's configuration, then reconfigure
the line (the capture happens before the mutations). -/
def I2CBitbangS.new (sclConf sdaConf : Nat) : I2CBitbangS :=
  { scl := initLine sclConf, scl_config := sclConf
    sda := initLine sdaConf, sda_config := sdaConf }

/-- The only line mutations `I2CBitbang` performs between construction and
drop: `clr_scl`/`set_scl`/`clr_sda`/`set_sda` (each an `enable_tx` toggle);
`read_bit`'s `get_rx` does not mutate the configuration. -/
inductive LineOp where
  | clr_scl | set_scl | clr_sda | set_sda
deriving DecidableEq

def applyLineOp (m : I2CBitbangS) : LineOp → I2CBitbangS
  | .clr_scl => { m with scl := enable_tx m.scl true }
  | .set_scl => { m with scl := enable_tx m.scl false }
  | .clr_sda => { m with sda := enable_tx m.sda true }
  | .set_sda => { m with sda := enable_tx m.sda false }

def runLineOps (m : I2CBitbangS) (ops : List LineOp) : I2CBitbangS :=
  ops.foldl applyLineOp m

/-- `impl Drop for I2CBitbang`: write the captured configurations back. -/
def dropRestore (m : I2CBitbangS) : I2CBitbangS :=
  { m with scl := m.scl_config, sda := m.sda_config }

/-! ## Bit-level byte transfer (`I2CBitbang::write_byte` / `read_byte`)

`write_byte` writes the 8 bits of the byte via `write_bit` for
`i in (0..8).rev()`; `read_byte` reads 8 bits via `read_bit` for
`i in (0..8).rev()`, or-ing `1 << i` in for each high bit. -/

/-- The bit sequence `write_byte(byte, _)` drives onto the data line:
`byte & (1 << i) != 0` for `i = 7, 6, ..., 0`. -/
def writeByteBits (byte : Nat) : List Bool :=
  (List.range 8).reverse.map (fun i => byte &&& (1 <<< i) != 0)

/-- The accumulator loop of `read_byte`: consume one incoming bit per
index `i`, or-ing `1 <<< i` into the byte when the bit is high. -/
def readBitsAcc : List Bool → List Nat → Nat → Nat
  | bit :: bits, i :: is, byte =>
      readBitsAcc bits is (if bit then byte ||| (1 <<< i) else byte)
  | _, _, byte => byte

/-- `read_byte` applied to a stream of incoming data-line bits. -/
def readByteFromBits (bits : List Bool) : Nat :=
  readBitsAcc bits (List.range 8).reverse 0

/-! ## SMBus block layer (`smbus_block_write` / `smbus_block_read`)

The slave side of the bus is an oracle: `ack n` is the acknowledgment bit
the slave answers to the `n`-th byte written in the run, `rd n` the value
(taken mod 256, a byte) the slave drives for the `n`-th byte read. The
byte-level operations record a trace of bus events and thread the two
counters through the run. -/

inductive BusEv where
  | start
  | stop
  | writeByte (b : Nat)
  | readByte (b : Nat) (ack : Bool)
deriving DecidableEq

structure BusModel where
  ack : Nat → Bool
  rd : Nat → Nat

/-- Counters of bytes written / read so far, plus the event trace. -/
structure BusSt where
  w : Nat
  r : Nat
  trace : List BusEv
deriving DecidableEq

/-- `I2CBitbang::write_byte(byte, start)`: optional start condition, the
byte (a `u8`, hence mod 256) on the wire, then the acknowledgment bit
(negated `read_bit`) as answered by the slave oracle. -/
def write_byte (bus : BusModel) (st : BusSt) (byte : Nat) (start : Bool) : Bool × BusSt :=
  let evs := (if start then [BusEv.start] else []) ++ [BusEv.writeByte (byte % 256)]
  (bus.ack st.w, { st with w := st.w + 1, trace := st.trace ++ evs })

/-- `I2CBitbang::read_byte(ack)`: 8 bits from the slave assemble a byte,
then our acknowledgment bit is driven. -/
def read_byte (bus : BusModel) (st : BusSt) (ack : Bool) : Nat × BusSt :=
  let v := bus.rd st.r % 256
  (v, { st with r := st.r + 1, trace := st.trace ++ [BusEv.readByte v ack] })

/-- `I2CBitbang::stop`. -/
def busStop (st : BusSt) : BusSt :=
  { st with trace := st.trace ++ [BusEv.stop] }

/-- The payload loop of `smbus_block_write`: write each byte, counting
consecutive acknowledgments, breaking at the first nack. -/
def writePayload (bus : BusModel) (st : BusSt) : List Nat → Nat × BusSt
  | [] => (0, st)
  | b :: rest =>
    let p := write_byte bus st b false
    if p.1 then
      let q := writePayload bus p.2 rest
      (q.1 + 1, q.2)
    else (0, p.2)

/-- `I2CBitbang::smbus_block_write(address, command, bytes)`. Payloads of
more than 32 bytes return 0 immediately, before any bus activity and
before the `stop()` at the end of the function. -/
def smbus_block_write (bus : BusModel) (st0 : BusSt) (address command : Nat)
    (bytes : List Nat) : Nat × BusSt :=
  if bytes.length > 32 then (0, st0)
  else
    let res :=
      let p1 := write_byte bus st0 (address <<< 1) true
      if p1.1 then
        let p2 := write_byte bus p1.2 command false
        if p2.1 then
          let p3 := write_byte bus p2.2 bytes.length false
          if p3.1 then writePayload bus p3.2 bytes
          else (0, p3.2)
        else (0, p2.2)
      else (0, p1.2)
    (res.1, busStop res.2)

/-- The read loop of `smbus_block_read`: `for i in 0..count`, read a byte
acknowledging it unless it is the last (`ack = i + 1 != count`). The
first argument is the remaining iteration count `count - i`. -/
def readLoopAux (bus : BusModel) (count : Nat) : Nat → Nat → BusSt → List Nat × BusSt
  | 0, _, st => ([], st)
  | rem + 1, i, st =>
    let q := read_byte bus st (i + 1 != count)
    let rest := readLoopAux bus count rem (i + 1) q.2
    (q.1 :: rest.1, rest.2)

def readLoop (bus : BusModel) (count : Nat) (st : BusSt) : List Nat × BusSt :=
  readLoopAux bus count count 0 st

/-- `I2CBitbang::smbus_block_read(address, command)`. -/
def smbus_block_read (bus : BusModel) (st0 : BusSt) (address command : Nat) :
    List Nat × BusSt :=
  let res :=
    let p1 := write_byte bus st0 (address <<< 1) true
    if p1.1 then
      let p2 := write_byte bus p1.2 command false
      if p2.1 then
        let p3 := write_byte bus p2.2 (address <<< 1 ||| 1) true
        if p3.1 then
          let q := read_byte bus p3.2 true
          readLoop bus q.1 q.2
        else ([], p3.2)
      else ([], p2.2)
    else ([], p1.2)
  (res.1, busStop res.2)

/-- Characterization of the payload loop's return value: the length of
the maximal prefix of consecutively acknowledged payload bytes. -/
def ackRun (bus : BusModel) (w : Nat) : List Nat → Nat
  | [] => 0
  | _ :: rest => if bus.ack w then ackRun bus (w + 1) rest + 1 else 0

/-- Characterization of the payload bytes actually driven on the wire:
the acknowledged prefix plus, if the payload was cut short, the first
unacknowledged byte. -/
def writtenBytes (bus : BusModel) (w : Nat) : List Nat → List Nat
  | [] => []
  | b :: rest => if bus.ack w then b :: writtenBytes bus (w + 1) rest else [b]

/-- A bus whose slave acknowledges every byte and reads back `2, 11, 12,
13, ...`: a concrete oracle used to evaluate the block transfers. -/
def sampleBus : BusModel :=
  { ack := fun _ => true, rd := fun n => if n = 0 then 2 else 10 + n }

/-- The empty starting bus state. -/
def emptySt : BusSt := { w := 0, r := 0, trace := [] }

/-! ## Retimer command protocol (`Retimer::command`)

`command(cmd)` writes `cmd` to the command register `IECS_CMD`, then polls
that register up to 1000 times. The model assumes the register write and
every register read succeed at the SMBus level and takes the polled
values from an oracle `reads : Nat → Nat` (`reads k` is the value of the
`k`-th poll); it records the register-level trace. -/

inductive RetEv where
  | writeReg (reg value : Nat)
  | readReg (reg value : Nat)
deriving DecidableEq

inductive CmdResult where
  | ok
  | deviceError (status : Nat)
  | timeout
deriving DecidableEq

/-- The polling loop of `Retimer::command`: per poll, a value equal to
`cmd` continues, a value of exactly 0 returns success, any other value
returns the device error carrying it; exhausting the retries times out.
`k` counts the polls already performed, the last argument the retries
remaining. -/
def commandLoop (reads : Nat → Nat) (cmd k : Nat) : Nat → List RetEv × CmdResult
  | 0 => ([], .timeout)
  | r + 1 =>
    let status := reads k
    if status ≠ cmd then
      if status = 0 then ([RetEv.readReg IECS_CMD status], .ok)
      else ([RetEv.readReg IECS_CMD status], .deviceError status)
    else
      let rest := commandLoop reads cmd (k + 1) r
      (RetEv.readReg IECS_CMD status :: rest.1, rest.2)

/-- `Retimer::command(cmd)` with `retries = 1000`. -/
def command (reads : Nat → Nat) (cmd : Nat) : List RetEv × CmdResult :=
  let l := commandLoop reads cmd 0 1000
  (RetEv.writeReg IECS_CMD cmd :: l.1, l.2)

/-- The number of polls (register reads) a `command` run performs. -/
def pollCount (reads : Nat → Nat) (cmd : Nat) : Nat :=
  (command reads cmd).1.length - 1

/-! ## The firmware update sequence (`flash_retimer`)

The update is modelled at the register/command level: a trace of register
reads, register writes and issued commands. The model covers the runs the
claims quantify over — every register write and every command succeeds —
and parameterizes the two identification reads by success flags (a failed
`retimer.read(..)?` propagates out of `flash_retimer`). The chunked
writing loop indexes `image[i], image[i+1], image[i+2], image[i+3]`
guarded only by `i < image.len()`; an out-of-bounds index is a panic,
modelled by a `false` completion flag. -/

inductive FlashEv where
  | readReg (reg : Nat)
  | writeReg (reg data : Nat)
  | cmd (c : Nat)
deriving DecidableEq

/-- The little-endian word assembly
`image[i] | image[i+1] << 8 | image[i+2] << 16 | image[i+3] << 24`. -/
def leWord (b0 b1 b2 b3 : Nat) : Nat :=
  b0 ||| (b1 <<< 8) ||| (b2 <<< 16) ||| (b3 <<< 24)

/-- The nested chunk-writing loops of `flash_retimer`, flattened into one
recursion: the state `(i, j)` is a position inside the body of the outer
loop (`i` the image cursor, `j` the offset within the current 64-byte
chunk). While `i < image.len() && j < 64` a word is assembled and written
to `MSG_OUT_RDATA`; when the inner loop exits, one `CMD_BLKW` command is
issued and the outer loop re-checks `i < image.len()`. The first `Nat`
argument is fuel, a proven upper bound on the number of steps; the
returned flag is `false` when the word assembly indexed out of bounds
(the run panics there, keeping the events before the panic). -/
def writeLoop (image : List Nat) : Nat → Nat → Nat → List FlashEv × Bool
  | 0, _, _ => ([], false)
  | fuel + 1, i, j =>
    if i < image.length then
      if j < 64 then
        match image[i]?, image[i + 1]?, image[i + 2]?, image[i + 3]? with
        | some b0, some b1, some b2, some b3 =>
          let rest := writeLoop image fuel (i + 4) (j + 4)
          (FlashEv.writeReg MSG_OUT_RDATA (leWord b0 b1 b2 b3) :: rest.1, rest.2)
        | _, _, _, _ => ([], false)
      else
        let rest := writeLoop image fuel i 0
        (FlashEv.cmd CMD_BLKW :: rest.1, rest.2)
    else ([FlashEv.cmd CMD_BLKW], true)

/-- The chunked writing phase: the outer `while i < image.len()` loop
entered at `i = 0`. The fuel `2 * image.length + 2` dominates the loop
measure `2 * (image.length - i) + (if j < 64 then 1 else 2)`. -/
def flashWrites (image : List Nat) : List FlashEv × Bool :=
  if 0 < image.length then writeLoop image (2 * image.length + 2) 0 0
  else ([], true)

inductive FlashOutcome where
  | done (trace : List FlashEv)
  | failed (trace : List FlashEv)
  | panicked (trace : List FlashEv)
deriving DecidableEq

def FlashOutcome.trace : FlashOutcome → List FlashEv
  | .done t => t
  | .failed t => t
  | .panicked t => t

def FlashOutcome.isDone : FlashOutcome → Bool
  | .done _ => true
  | _ => false

/-- `flash_retimer`: read the two identification registers (`?` propagates
a failure of either read), write 0 to `IECS_DATA`, issue `CMD_BOPS`, run
the chunked writing loops, issue `CMD_AUTH` then `CMD_PCYC`. Register
writes and commands are assumed to succeed (the runs the claims are
about); `vendorOk` / `deviceOk` give the outcomes of the two reads. -/
def flashRetimer (vendorOk deviceOk : Bool) (image : List Nat) : FlashOutcome :=
  if vendorOk then
    if deviceOk then
      let pre := [FlashEv.readReg 0, FlashEv.readReg 1,
                  FlashEv.writeReg IECS_DATA 0, FlashEv.cmd CMD_BOPS]
      let w := flashWrites image
      if w.2 then .done (pre ++ w.1 ++ [FlashEv.cmd CMD_AUTH, FlashEv.cmd CMD_PCYC])
      else .panicked (pre ++ w.1)
    else .failed [FlashEv.readReg 0, FlashEv.readReg 1]
  else .failed [FlashEv.readReg 0]

/-- Group a byte sequence into little-endian 32-bit words, four bytes per
word (a trailing group of fewer than four bytes is dropped; the flashing
claims only use this on images whose length is a multiple of four). -/
def bytesToWords : List Nat → List Nat
  | b0 :: b1 :: b2 :: b3 :: rest => leWord b0 b1 b2 b3 :: bytesToWords rest
  | _ => []

/-- Modelled from the spec's description of the Writing phase: the event
sequence of the chunks from offset `i` on — each chunk is up to 16
little-endian words (64 bytes, fewer for the final chunk) written to the
staging data register followed by one write-block command. Used as the
specification side of the refinement for the chunking claim. The first
`Nat` argument is fuel. -/
def specWriteEvs (image : List Nat) : Nat → Nat → List FlashEv
  | 0, _ => []
  | fuel + 1, i =>
    (bytesToWords ((image.drop i).take 64)).map (FlashEv.writeReg MSG_OUT_RDATA) ++
      FlashEv.cmd CMD_BLKW ::
        (if i + 64 < image.length then specWriteEvs image fuel (i + 64) else [])

/-- The spec-shaped event sequence of the whole Writing phase. -/
def specFlashWriteEvs (image : List Nat) : List FlashEv :=
  if 0 < image.length then specWriteEvs image image.length 0 else []

/-- The number of commands with opcode `c` in a flash trace. -/
def countFlashCmd (c : Nat) : List FlashEv → Nat
  | [] => 0
  | FlashEv.cmd c2 :: rest => (if c2 = c then 1 else 0) + countFlashCmd c rest
  | _ :: rest => countFlashCmd c rest

/-! ## Theorems -/

set_option maxRecDepth 4000 in
/-- C5: for every byte `b`, `write_byte` emits the 8 bits of `b`
most-significant-bit first — `0xA5` emits `[1,0,1,0,0,1,0,1]` in order —
and feeding the emitted bit sequence directly into `read_byte`
reconstructs exactly `b`. -/
theorem claimC5 :
    writeByteBits 0xA5 = [true, false, true, false, false, true, false, true]
    ∧ ∀ b, b < 256 → readByteFromBits (writeByteBits b) = b := by
  refine ⟨by decide, by decide⟩

/-- Witness for C5 at `b = 0xA5`. -/
theorem claimC5_witness : readByteFromBits (writeByteBits 165) = 165 :=
  claimC5.2 165 (by decide)

/-- The captured pre-construction configurations are never mutated by the
line operations of a run. -/
theorem runLineOps_preserves : ∀ (ops : List LineOp) (m : I2CBitbangS),
    (runLineOps m ops).scl_config = m.scl_config
    ∧ (runLineOps m ops).sda_config = m.sda_config := by
  intro ops
  induction ops with
  | nil => exact fun m => ⟨rfl, rfl⟩
  | cons op rest ih =>
    intro m
    have h := ih (applyLineOp m op)
    have h2 : (applyLineOp m op).scl_config = m.scl_config
        ∧ (applyLineOp m op).sda_config = m.sda_config := by
      cases op <;> exact ⟨rfl, rfl⟩
    simp only [runLineOps, List.foldl_cons] at h ⊢
    exact ⟨h.1.trans h2.1, h.2.trans h2.2⟩

/-- C6: for every run of an `I2CBitbang` instance — whatever sequence of
line operations the enclosing operation performed, success or failure —
the configuration of both the clock and the data line after `Drop` equals
the value captured from that line right before `new` reconfigured it. -/
theorem claimC6 : ∀ (scl0 sda0 : Nat) (ops : List LineOp),
    (dropRestore (runLineOps (I2CBitbangS.new scl0 sda0) ops)).scl = scl0
    ∧ (dropRestore (runLineOps (I2CBitbangS.new scl0 sda0) ops)).sda = sda0 := by
  intro scl0 sda0 ops
  have h := runLineOps_preserves ops (I2CBitbangS.new scl0 sda0)
  exact ⟨h.1, h.2⟩

/-- The payload loop writes the acknowledged prefix of the payload plus
the first unacknowledged byte, and returns the acknowledged count. -/
theorem writePayload_eq (bus : BusModel) : ∀ (bytes : List Nat) (st : BusSt),
    writePayload bus st bytes =
      (ackRun bus st.w bytes,
       { w := st.w + (writtenBytes bus st.w bytes).length, r := st.r,
         trace := st.trace ++
           (writtenBytes bus st.w bytes).map (fun b => BusEv.writeByte (b % 256)) }) := by
  intro bytes
  induction bytes with
  | nil => intro st; simp [writePayload, ackRun, writtenBytes]
  | cons b rest ih =>
    intro st
    rcases st with ⟨w, r, tr⟩
    by_cases h : bus.ack w
    · simp only [writePayload, write_byte, List.nil_append, h, if_true, ih,
        ackRun, writtenBytes, List.map_cons, List.length_cons,
        Prod.mk.injEq, BusSt.mk.injEq]
      refine ⟨trivial, by omega, trivial, by simp [List.append_assoc]⟩
    · simp [writePayload, write_byte, h, ackRun, writtenBytes]

/-- C8 fails as stated on payloads longer than 32 bytes: the early
`return 0` precedes the `stop()`, so no stop condition (indeed no bus
event at all) is issued for a 33-byte payload. -/
theorem claimC8_cex :
    32 < (List.replicate 33 (0 : Nat)).length
    ∧ ¬ (smbus_block_write sampleBus emptySt 0x40 8
          (List.replicate 33 0)).2.trace.getLast? = some BusEv.stop := by
  decide

/-- C8 amended: for every address, command byte, and payload of at most
32 bytes — that is, whenever `smbus_block_write` performs any bus
transaction at all — a stop condition is the last bus event issued
before returning. -/
theorem claimC8_amended (bus : BusModel) (st0 : BusSt) (address command : Nat)
    (bytes : List Nat) (h : bytes.length ≤ 32) :
    (smbus_block_write bus st0 address command bytes).2.trace.getLast? = some BusEv.stop := by
  simp only [smbus_block_write, gt_iff_lt, if_neg (by omega : ¬ 32 < bytes.length)]
  simp [busStop]

/-- Witness for the amended C8 on a concrete in-range payload. -/
theorem claimC8_witness :
    (smbus_block_write sampleBus emptySt 64 8 [1, 2, 3, 4]).2.trace.getLast? =
      some BusEv.stop :=
  claimC8_amended sampleBus emptySt 64 8 [1, 2, 3, 4] (by decide)

/-- C3: for every payload longer than 32 bytes, `smbus_block_write`
returns 0 and performs no bus transaction at all (the state, trace
included, is untouched); for payloads of at most 32 bytes it writes the
address byte, the command byte and the byte count, each gated on the
previous byte's acknowledgment, then writes payload bytes in order
stopping at the first unacknowledged byte, and returns exactly the
number of payload bytes that were acknowledged (`ackRun`, the maximal
acknowledged prefix). -/
theorem claimC3 (bus : BusModel) (st0 : BusSt) (address command : Nat) (bytes : List Nat) :
    (32 < bytes.length → smbus_block_write bus st0 address command bytes = (0, st0))
    ∧ (bytes.length ≤ 32 →
        (smbus_block_write bus st0 address command bytes).1 =
          (if bus.ack st0.w then if bus.ack (st0.w + 1) then if bus.ack (st0.w + 2) then
              ackRun bus (st0.w + 3) bytes else 0 else 0 else 0)
        ∧ (smbus_block_write bus st0 address command bytes).2.trace =
            st0.trace ++ BusEv.start :: BusEv.writeByte ((address <<< 1) % 256) ::
              ((if bus.ack st0.w then
                  BusEv.writeByte (command % 256) ::
                    (if bus.ack (st0.w + 1) then
                      BusEv.writeByte (bytes.length % 256) ::
                        (if bus.ack (st0.w + 2) then
                          (writtenBytes bus (st0.w + 3) bytes).map
                            (fun b => BusEv.writeByte (b % 256))
                        else [])
                    else [])
                else []) ++ [BusEv.stop])) := by
  constructor
  · intro h
    simp [smbus_block_write, h]
  · intro h
    rcases st0 with ⟨w, r, tr⟩
    by_cases h0 : bus.ack w
    · by_cases h1 : bus.ack (w + 1)
      · by_cases h2 : bus.ack (w + 2)
        · simp [smbus_block_write, show ¬ 32 < bytes.length by omega, write_byte,
            busStop, writePayload_eq, h0, h1, h2, Nat.add_assoc, List.append_assoc]
        · simp [smbus_block_write, show ¬ 32 < bytes.length by omega, write_byte,
            busStop, h0, h1, h2, Nat.add_assoc, List.append_assoc]
      · simp [smbus_block_write, show ¬ 32 < bytes.length by omega, write_byte,
          busStop, h0, h1, Nat.add_assoc, List.append_assoc]
    · simp [smbus_block_write, show ¬ 32 < bytes.length by omega, write_byte,
        busStop, h0, List.append_assoc]

/-- Witness for C3 on a concrete all-acknowledging bus and a 4-byte
payload: all 4 bytes are accepted. -/
theorem claimC3_witness :
    (smbus_block_write sampleBus emptySt 64 8 [1, 2, 3, 4]).1 = 4 :=
  ((claimC3 sampleBus emptySt 64 8 [1, 2, 3, 4]).2 (by decide)).1.trans (by decide)

/-- The read loop of `smbus_block_read` reads `rem` more bytes in order,
acknowledging each except the one at the final index. -/
theorem readLoopAux_eq (bus : BusModel) (c : Nat) : ∀ (rem i : Nat) (st : BusSt),
    readLoopAux bus c rem i st =
      ((List.range rem).map (fun k => bus.rd (st.r + k) % 256),
       { w := st.w, r := st.r + rem,
         trace := st.trace ++ (List.range rem).map
           (fun k => BusEv.readByte (bus.rd (st.r + k) % 256) (i + k + 1 != c)) }) := by
  intro rem
  induction rem with
  | zero => intro i st; simp [readLoopAux]
  | succ n ih =>
    intro i st
    rcases st with ⟨w, r, tr⟩
    simp only [readLoopAux, read_byte, ih, List.range_succ_eq_map, List.map_cons,
      List.map_map, Prod.mk.injEq, BusSt.mk.injEq, List.cons.injEq, Nat.add_zero,
      List.append_assoc, List.singleton_append]
    have hm1 : List.map (fun k => bus.rd (r + 1 + k) % 256) (List.range n) =
        List.map ((fun k => bus.rd (r + k) % 256) ∘ Nat.succ) (List.range n) :=
      List.map_congr_left fun k _ => by
        rw [show r + 1 + k = r + Nat.succ k by omega]; rfl
    have hm2 : List.map
          (fun k => BusEv.readByte (bus.rd (r + 1 + k) % 256) (i + 1 + k + 1 != c))
          (List.range n) =
        List.map
          ((fun k => BusEv.readByte (bus.rd (r + k) % 256) (i + k + 1 != c)) ∘ Nat.succ)
          (List.range n) :=
      List.map_congr_left fun k _ => by
        rw [show r + 1 + k = r + Nat.succ k by omega,
          show i + 1 + k = i + Nat.succ k by omega]; rfl
    exact ⟨⟨trivial, hm1⟩, trivial, by omega, by rw [hm2]⟩

/-- C4: when the address, command, and repeated-start address bytes are
all acknowledged, `smbus_block_read` reads one length byte `N`
(acknowledged), then reads exactly `N` further bytes acknowledging each
except the one at index `N - 1` (the flag `k + 1 != N` is false exactly
on the last byte, for any `N ≥ 1`), and returns a sequence of length
`N`; if any of the three preliminary writes is unacknowledged it returns
the empty sequence; in both cases a stop condition is the final bus
event before returning. -/
theorem claimC4 (bus : BusModel) (st0 : BusSt) (address command : Nat) :
    (bus.ack st0.w ∧ bus.ack (st0.w + 1) ∧ bus.ack (st0.w + 2) →
      (smbus_block_read bus st0 address command).1 =
        (List.range (bus.rd st0.r % 256)).map (fun k => bus.rd (st0.r + 1 + k) % 256)
      ∧ (smbus_block_read bus st0 address command).1.length = bus.rd st0.r % 256
      ∧ (smbus_block_read bus st0 address command).2.trace =
          st0.trace ++ [BusEv.start, BusEv.writeByte ((address <<< 1) % 256),
            BusEv.writeByte (command % 256), BusEv.start,
            BusEv.writeByte ((address <<< 1 ||| 1) % 256),
            BusEv.readByte (bus.rd st0.r % 256) true]
          ++ (List.range (bus.rd st0.r % 256)).map
              (fun k => BusEv.readByte (bus.rd (st0.r + 1 + k) % 256)
                (k + 1 != bus.rd st0.r % 256))
          ++ [BusEv.stop])
    ∧ (¬ (bus.ack st0.w ∧ bus.ack (st0.w + 1) ∧ bus.ack (st0.w + 2)) →
        (smbus_block_read bus st0 address command).1 = [])
    ∧ (smbus_block_read bus st0 address command).2.trace.getLast? = some BusEv.stop := by
  rcases st0 with ⟨w, r, tr⟩
  refine ⟨?_, ?_, ?_⟩
  · rintro ⟨h0, h1, h2⟩
    simp [smbus_block_read, write_byte, read_byte, busStop, readLoop,
      readLoopAux_eq, h0, h1, h2, Nat.add_assoc, List.append_assoc]
  · intro h
    by_cases h0 : bus.ack w
    · by_cases h1 : bus.ack (w + 1)
      · have h2 : ¬ bus.ack (w + 2) := fun hc => h ⟨h0, h1, hc⟩
        simp [smbus_block_read, write_byte, busStop, h0, h1, h2, Nat.add_assoc]
      · simp [smbus_block_read, write_byte, busStop, h0, h1, Nat.add_assoc]
    · simp [smbus_block_read, write_byte, busStop, h0]
  · simp only [smbus_block_read, busStop]
    simp

/-- Witness for C4 on a concrete bus whose slave acknowledges everything
and answers a length byte of 2: two data bytes are returned. -/
theorem claimC4_witness :
    (smbus_block_read sampleBus emptySt 64 5).1.length = 2 :=
  (((claimC4 sampleBus emptySt 64 5).1 (by decide)).2.1).trans (by decide)

/-- If every remaining poll echoes the command, the polling loop consumes
every retry and times out. -/
theorem commandLoop_echo (reads : Nat → Nat) (cmd : Nat) : ∀ (r k : Nat),
    (∀ m, m < r → reads (k + m) = cmd) →
    commandLoop reads cmd k r =
      (List.replicate r (RetEv.readReg IECS_CMD cmd), CmdResult.timeout) := by
  intro r
  induction r with
  | zero => intro k h; simp [commandLoop]
  | succ n ih =>
    intro k h
    have h0 : reads k = cmd := by simpa using h 0 (by omega)
    have hrest := ih (k + 1) (fun m hm => by
      have h2 := h (m + 1) (by omega)
      rwa [show k + (m + 1) = k + 1 + m by omega] at h2)
    simp [commandLoop, h0, hrest, List.replicate_succ]

/-- If the first deviation from the echoed command happens at poll `m`,
the polling loop stops right there: success on value 0, a device error
carrying the value otherwise. -/
theorem commandLoop_dev (reads : Nat → Nat) (cmd : Nat) : ∀ (m r k : Nat),
    m < r → (∀ j, j < m → reads (k + j) = cmd) → reads (k + m) ≠ cmd →
    commandLoop reads cmd k r =
      (List.replicate m (RetEv.readReg IECS_CMD cmd) ++
        [RetEv.readReg IECS_CMD (reads (k + m))],
       if reads (k + m) = 0 then CmdResult.ok
       else CmdResult.deviceError (reads (k + m))) := by
  intro m
  induction m with
  | zero =>
    intro r k hr hj hd
    rcases r with _ | n
    · omega
    · rw [Nat.add_zero] at hd
      simp only [commandLoop, List.replicate_zero, List.nil_append, Nat.add_zero]
      rw [if_pos hd]
      by_cases hz : reads k = 0
      · rw [if_pos hz, if_pos hz]
      · rw [if_neg hz, if_neg hz]
  | succ n ih =>
    intro r k hr hj hd
    rcases r with _ | r2
    · omega
    · have h0 : reads k = cmd := by simpa using hj 0 (by omega)
      have hrest := ih r2 (k + 1) (by omega)
        (fun j hjlt => by
          have h2 := hj (j + 1) (by omega)
          rwa [show k + (j + 1) = k + 1 + j by omega] at h2)
        (by rwa [show k + 1 + n = k + (n + 1) by omega])
      simp [commandLoop, h0, hrest, List.replicate_succ,
        show k + 1 + n = k + (n + 1) by omega]

/-- The polling loop's trace is some number `n ≤ r` of polls of the
command register, whose recorded values follow the oracle in order. -/
theorem commandLoop_shape (reads : Nat → Nat) (cmd : Nat) : ∀ (r k : Nat),
    ∃ n, n ≤ r ∧ (commandLoop reads cmd k r).1 =
      (List.range n).map (fun m => RetEv.readReg IECS_CMD (reads (k + m))) := by
  intro r
  induction r with
  | zero => intro k; exact ⟨0, by simp [commandLoop]⟩
  | succ t ih =>
    intro k
    by_cases hd : reads k = cmd
    · obtain ⟨n, hn, htr⟩ := ih (k + 1)
      refine ⟨n + 1, by omega, ?_⟩
      have hmap : (List.range n).map (fun m => RetEv.readReg IECS_CMD (reads (k + 1 + m))) =
          (List.range n).map
            ((fun m => RetEv.readReg IECS_CMD (reads (k + m))) ∘ Nat.succ) :=
        List.map_congr_left fun m _ => by
          rw [show k + 1 + m = k + Nat.succ m by omega]; rfl
      simp only [commandLoop, hd, ne_eq, not_true_eq_false, if_false, ite_false,
        List.range_succ_eq_map, List.map_cons, List.map_map, htr, hmap]
      simp [hd]
    · refine ⟨1, by omega, ?_⟩
      have hr1 : List.range 1 = [0] := rfl
      by_cases hz : reads k = 0
      · have hc : ¬ (0 = cmd) := by omega
        simp [commandLoop, hd, hz, hc, hr1]
      · simp [commandLoop, hd, hz, hr1]

/-- C1 fails as stated for opcode 0: the claim's closing sentence says a
register that echoes the opcode for `K` polls and then reads 0 yields
success after exactly `K + 1` reads; for opcode `c = 0` and `K = 0` such
a register reads 0 on every poll, yet the run times out after all 1000
polls, because a polled 0 is first compared against the echoed opcode. -/
theorem claimC1_cex :
    (command (fun _ => 0) 0).2 = CmdResult.timeout
    ∧ pollCount (fun _ => 0) 0 = 1000 := by
  have h := commandLoop_echo (fun _ => 0) 0 1000 0 (fun m _ => rfl)
  have hcons : command (fun _ => 0) 0 =
      (RetEv.writeReg IECS_CMD 0 :: List.replicate 1000 (RetEv.readReg IECS_CMD 0),
       CmdResult.timeout) := by
    unfold command
    rw [h]
  constructor
  · rw [hcons]
  · unfold pollCount
    rw [hcons]
    simp only [List.length_cons, List.length_replicate, Nat.add_sub_cancel]

/-- C1 amended: for every opcode `c`, `command c` first writes `c` to the
command register and then reads that register at most 1000 times, its
trace listing the polled values in oracle order; on a poll that reads `c`
it continues, on a poll that reads exactly 0 it stops and reports
success, on a poll that reads any other value it stops and reports the
device error carrying that value; if all 1000 polls read `c` it reports
the timeout. For every opcode `c ≠ 0`, a register that echoes `c` for
`K < 1000` polls and then reads 0 yields success after exactly `K + 1`
reads (for `c = 0` such a register keeps reading the echoed opcode and
the run times out, as the counterexample shows). -/
theorem claimC1_amended (cmd K : Nat) (reads : Nat → Nat) :
    (command reads cmd).1.head? = some (RetEv.writeReg IECS_CMD cmd)
    ∧ pollCount reads cmd ≤ 1000
    ∧ (command reads cmd).1 =
        RetEv.writeReg IECS_CMD cmd ::
          (List.range (pollCount reads cmd)).map
            (fun k => RetEv.readReg IECS_CMD (reads k))
    ∧ ((∀ k, k < 1000 → reads k = cmd) →
        (command reads cmd).2 = CmdResult.timeout ∧ pollCount reads cmd = 1000)
    ∧ (∀ m, m < 1000 → (∀ j, j < m → reads j = cmd) → reads m ≠ cmd →
        pollCount reads cmd = m + 1
        ∧ (reads m = 0 → (command reads cmd).2 = CmdResult.ok)
        ∧ (reads m ≠ 0 →
            (command reads cmd).2 = CmdResult.deviceError (reads m)))
    ∧ (cmd ≠ 0 → K < 1000 →
        (command (fun k => if k < K then cmd else 0) cmd).2 = CmdResult.ok
        ∧ pollCount (fun k => if k < K then cmd else 0) cmd = K + 1) := by
  obtain ⟨n, hn, htr⟩ := commandLoop_shape reads cmd 1000 0
  have hpc : pollCount reads cmd = n := by
    show (RetEv.writeReg IECS_CMD cmd :: (commandLoop reads cmd 0 1000).1).length - 1 = n
    rw [htr]
    simp only [List.length_cons, List.length_map, List.length_range, Nat.add_sub_cancel]
  refine ⟨by simp [command], by omega, ?_, ?_, ?_, ?_⟩
  · have hmap : (List.range n).map (fun m => RetEv.readReg IECS_CMD (reads (0 + m))) =
        (List.range n).map (fun k => RetEv.readReg IECS_CMD (reads k)) :=
      List.map_congr_left fun m _ => by rw [Nat.zero_add]
    show RetEv.writeReg IECS_CMD cmd :: (commandLoop reads cmd 0 1000).1 = _
    rw [htr, hmap, hpc]
  · intro hall
    have h := commandLoop_echo reads cmd 1000 0 (fun m hm => by
      simpa using hall m hm)
    constructor
    · show (commandLoop reads cmd 0 1000).2 = CmdResult.timeout
      rw [h]
    · show (RetEv.writeReg IECS_CMD cmd :: (commandLoop reads cmd 0 1000).1).length - 1
        = 1000
      rw [h]
      simp only [List.length_cons, List.length_replicate, Nat.add_sub_cancel]
  · intro m hm hj hd
    have h := commandLoop_dev reads cmd m 1000 0 hm
      (fun j hjm => by simpa using hj j hjm) (by simpa using hd)
    refine ⟨by simp [pollCount, command, h], ?_, ?_⟩
    · intro hz; simp [command, h, hz]
    · intro hz; simp [command, h, hz]
  · intro hc hK
    have h := commandLoop_dev (fun k => if k < K then cmd else 0) cmd K 1000 0 hK
      (fun j hjm => by simp [hjm]) (by simp; omega)
    exact ⟨by simp [command, h], by simp [pollCount, command, h]⟩

/-- Witness for the amended C1: opcode 5, echoed for 3 polls, then 0 —
success after exactly 4 reads. -/
theorem claimC1_witness :
    (command (fun k => if k < 3 then 5 else 0) 5).2 = CmdResult.ok
    ∧ pollCount (fun k => if k < 3 then 5 else 0) 5 = 4 :=
  (claimC1_amended 5 3 (fun k => if k < 3 then 5 else 0)).2.2.2.2.2
    (by decide) (by decide)

/-- With opcode 0 the polling loop can only time out or report a device
error carrying a nonzero value: a polled 0 equals the echoed opcode and
keeps the poll going. -/
theorem commandLoop_zero (reads : Nat → Nat) : ∀ (r k : Nat),
    (commandLoop reads 0 k r).2 = CmdResult.timeout
    ∨ ∃ v, v ≠ 0 ∧ (commandLoop reads 0 k r).2 = CmdResult.deviceError v := by
  intro r
  induction r with
  | zero => intro k; left; simp [commandLoop]
  | succ n ih =>
    intro k
    by_cases h : reads k = 0
    · have h2 := ih (k + 1)
      simpa [commandLoop, h] using h2
    · right
      exact ⟨reads k, h, by simp [commandLoop, h]⟩

/-- C10: for opcode 0, `Retimer::command` can never report success — a
polled 0 is indistinguishable from the still-pending echo of the opcode —
so every run with opcode 0 ends in the timeout (register stays 0 / keeps
echoing) or in a device error carrying the first nonzero polled value. -/
theorem claimC10 : ∀ reads : Nat → Nat,
    (command reads 0).2 ≠ CmdResult.ok
    ∧ ((command reads 0).2 = CmdResult.timeout
       ∨ ∃ v, v ≠ 0 ∧ (command reads 0).2 = CmdResult.deviceError v) := by
  intro reads
  have h := commandLoop_zero reads 1000 0
  have hcmd : (command reads 0).2 = (commandLoop reads 0 0 1000).2 := rfl
  constructor
  · rcases h with h | ⟨v, hv, h⟩ <;> simp [hcmd, h]
  · rcases h with h | ⟨v, hv, h⟩
    · left; rw [hcmd, h]
    · right; exact ⟨v, hv, by rw [hcmd, h]⟩

/-- The spec-shaped chunk trace does not depend on the fuel, as long as
the fuel covers the remaining chunks (each consumes 64 bytes). -/
theorem specWriteEvs_fuel (image : List Nat) : ∀ (f g i : Nat),
    image.length ≤ i + 64 * f → 0 < f → image.length ≤ i + 64 * g → 0 < g →
    specWriteEvs image f i = specWriteEvs image g i := by
  intro f
  induction f with
  | zero => intro g i h1 h2 h3 h4; omega
  | succ n ih =>
    intro g i h1 h2 h3 h4
    rcases g with _ | m
    · omega
    · simp only [specWriteEvs]
      by_cases hlt : i + 64 < image.length
      · rw [if_pos hlt, if_pos hlt,
          ih m (i + 64) (by omega) (by omega) (by omega) (by omega)]
      · rw [if_neg hlt, if_neg hlt]

/-- One unfolding of the spec-shaped chunk trace for positive fuel. -/
theorem specWriteEvs_unfold (image : List Nat) (f i : Nat) (hf : 0 < f) :
    specWriteEvs image f i =
      (bytesToWords ((image.drop i).take 64)).map (FlashEv.writeReg MSG_OUT_RDATA) ++
        FlashEv.cmd CMD_BLKW ::
          (if i + 64 < image.length then specWriteEvs image (f - 1) (i + 64) else []) := by
  rcases f with _ | n
  · omega
  · simp only [specWriteEvs, Nat.add_sub_cancel]

/-- For an image whose length is a multiple of 4, the chunked write loop
never indexes out of bounds and produces exactly the spec-shaped chunk
trace: from state `(i, j)` it writes the words of the next `64 - j` bytes
(fewer if the image ends first), issues one write-block command, and
continues chunk by chunk. -/
theorem writeLoop_eq (image : List Nat) (hL : image.length % 4 = 0) : ∀ (n i j : Nat),
    2 * (image.length - i) + (if j < 64 then 1 else 2) ≤ n →
    i % 4 = 0 → j % 4 = 0 → j ≤ 64 → i ≤ image.length →
    writeLoop image n i j =
      ((bytesToWords ((image.drop i).take (64 - j))).map (FlashEv.writeReg MSG_OUT_RDATA)
        ++ FlashEv.cmd CMD_BLKW ::
          (if i + (64 - j) < image.length
           then specWriteEvs image (image.length - (i + (64 - j))) (i + (64 - j))
           else []),
       true) := by
  intro n
  induction n with
  | zero =>
    intro i j hn hi hj hj64 hiL
    by_cases hjlt : j < 64 <;> simp [hjlt] at hn
  | succ n ih =>
    intro i j hn hi hj hj64 hiL
    by_cases hilt : i < image.length
    · by_cases hjlt : j < 64
      · -- a word is assembled and written
        have hgap : 4 ≤ image.length - i := by omega
        have h0 : i < image.length := hilt
        have h1 : i + 1 < image.length := by omega
        have h2 : i + 2 < image.length := by omega
        have h3 : i + 3 < image.length := by omega
        have hrec := ih (i + 4) (j + 4) (by simp [hjlt] at hn; split_ifs <;> omega)
          (by omega) (by omega) (by omega) (by omega)
        have hdrop : image.drop i =
            image[i] :: image[i + 1] :: image[i + 2] :: image[i + 3] :: image.drop (i + 4) := by
          rw [List.drop_eq_getElem_cons h0, List.drop_eq_getElem_cons h1,
            List.drop_eq_getElem_cons h2, List.drop_eq_getElem_cons h3]
        obtain ⟨m, hm⟩ : ∃ m, 64 - j = m + 4 := ⟨64 - j - 4, by omega⟩
        have hm2 : 64 - (j + 4) = m := by omega
        simp only [writeLoop, if_pos hilt, if_pos hjlt,
          List.getElem?_eq_getElem h0, List.getElem?_eq_getElem h1,
          List.getElem?_eq_getElem h2, List.getElem?_eq_getElem h3]
        rw [hrec, hdrop, hm, hm2, show i + 4 + m = i + (m + 4) by omega]
        simp only [List.take_succ_cons, bytesToWords, List.map_cons, List.cons_append]
      · -- the inner loop ended at `j = 64`: issue the block command
        have hj64e : j = 64 := by omega
        subst hj64e
        have hrec := ih i 0 (by simp at hn ⊢; omega) hi (by omega) (by omega) hiL
        simp only [writeLoop, if_pos hilt, if_neg hjlt]
        rw [hrec]
        have hspec : (if i + 64 < image.length
            then specWriteEvs image (image.length - (i + 64)) (i + 64) else []) =
            (if i + 64 < image.length
            then specWriteEvs image (image.length - i - 1) (i + 64) else []) := by
          by_cases hlt : i + 64 < image.length
          · rw [if_pos hlt, if_pos hlt,
              specWriteEvs_fuel image (image.length - (i + 64)) (image.length - i - 1)
                (i + 64) (by omega) (by omega) (by omega) (by omega)]
          · rw [if_neg hlt, if_neg hlt]
        rw [hspec]
        have hout : specWriteEvs image (image.length - i) i =
            (bytesToWords ((image.drop i).take 64)).map (FlashEv.writeReg MSG_OUT_RDATA) ++
              FlashEv.cmd CMD_BLKW ::
                (if i + 64 < image.length
                 then specWriteEvs image (image.length - i - 1) (i + 64) else []) := by
          rw [specWriteEvs_unfold image (image.length - i) i (by omega)]
        rw [show (64 : Nat) - 64 = 0 by omega]
        simp only [List.take_zero, bytesToWords, List.map_nil, List.nil_append,
          Nat.add_zero, if_pos hilt, hout]
    · -- the outer loop is done: the final block command of the last chunk
      have hieq : i = image.length := by omega
      simp only [writeLoop, if_neg hilt]
      have hdrop : image.drop i = [] := List.drop_eq_nil_of_le (by omega)
      rw [hdrop]
      rw [if_neg (by omega : ¬ i + (64 - j) < image.length)]
      simp [bytesToWords]

/-- For an image whose length is not a multiple of 4, the chunked write
loop always reaches a word assembly whose indices `i + 1`, `i + 2` or
`i + 3` are out of bounds: the run panics (completion flag `false`). -/
theorem writeLoop_oob (image : List Nat) (hL : image.length % 4 ≠ 0) : ∀ (n i j : Nat),
    2 * (image.length - i) + (if j < 64 then 1 else 2) ≤ n →
    i % 4 = 0 → i < image.length →
    (writeLoop image n i j).2 = false := by
  intro n
  induction n with
  | zero =>
    intro i j hn hi hilt
    by_cases hjlt : j < 64 <;> simp [hjlt] at hn
  | succ n ih =>
    intro i j hn hi hilt
    by_cases hjlt : j < 64
    · by_cases hgap : 4 ≤ image.length - i
      · have h0 : i < image.length := hilt
        have h1 : i + 1 < image.length := by omega
        have h2 : i + 2 < image.length := by omega
        have h3 : i + 3 < image.length := by omega
        have hrec := ih (i + 4) (j + 4) (by simp [hjlt] at hn; split_ifs <;> omega)
          (by omega) (by omega)
        simp only [writeLoop, if_pos hilt, if_pos hjlt,
          List.getElem?_eq_getElem h0, List.getElem?_eq_getElem h1,
          List.getElem?_eq_getElem h2, List.getElem?_eq_getElem h3]
        exact hrec
      · have h3 : image[i + 3]? = none := by
          rw [List.getElem?_eq_none]
          omega
        cases e0 : image[i]? <;> cases e1 : image[i + 1]? <;> cases e2 : image[i + 2]? <;>
          simp [writeLoop, if_pos hilt, if_pos hjlt, e0, e1, e2, h3]
    · have hrec := ih i 0 (by simp [hjlt] at hn; simp; omega) hi hilt
      simp only [writeLoop, if_pos hilt, if_neg hjlt]
      exact hrec

/-- C9: the word assembly of the chunked writing loop reads the image at
`i`, `i + 1`, `i + 2`, `i + 3` guarded only by `i < image.len()`, so the
loop completes with every index in bounds exactly when the image length
is a multiple of 4: divisibility by 4 is a required precondition for the
loop to be total (otherwise the run panics on an out-of-bounds index). -/
theorem claimC9 : ∀ image : List Nat,
    (flashWrites image).2 = true ↔ image.length % 4 = 0 := by
  intro image
  constructor
  · intro h
    by_contra hL
    have h0 : 0 < image.length := by omega
    have hoob := writeLoop_oob image hL (2 * image.length + 2) 0 0
      (by simp) (by omega) h0
    unfold flashWrites at h
    rw [if_pos h0, hoob] at h
    exact Bool.false_ne_true h
  · intro hL
    by_cases h0 : 0 < image.length
    · have hw := writeLoop_eq image hL (2 * image.length + 2) 0 0
        (by simp) (by omega) (by omega) (by omega) (by omega)
      unfold flashWrites
      rw [if_pos h0, hw]
    · unfold flashWrites
      rw [if_neg h0]

/-- For a 4-divisible image the chunked writing phase completes and its
event trace is exactly the spec-shaped chunk trace. -/
theorem flashWrites_eq (image : List Nat) (h4 : image.length % 4 = 0) :
    flashWrites image = (specFlashWriteEvs image, true) := by
  by_cases h0 : 0 < image.length
  · have hw := writeLoop_eq image h4 (2 * image.length + 2) 0 0
      (by simp) (by omega) (by omega) (by omega) (by omega)
    unfold flashWrites specFlashWriteEvs
    rw [if_pos h0, if_pos h0, hw, specWriteEvs_unfold image image.length 0 h0]
    simp only [List.drop_zero, Nat.zero_add, Nat.sub_zero]
    by_cases hlt : 64 < image.length
    · rw [if_pos hlt, if_pos hlt,
        specWriteEvs_fuel image (image.length - 64) (image.length - 1) 64
          (by omega) (by omega) (by omega) (by omega)]
    · rw [if_neg hlt, if_neg hlt]
  · unfold flashWrites specFlashWriteEvs
    rw [if_neg h0, if_neg h0]

/-- A run with both identification reads succeeding and a 4-divisible
image completes in the Done state with the canonical trace: the two
identification reads, the offset write and begin-operation command, the
spec-shaped chunk trace, then authenticate and power-cycle. -/
theorem flashRetimer_done (image : List Nat) (h4 : image.length % 4 = 0) :
    flashRetimer true true image =
      FlashOutcome.done
        ([FlashEv.readReg 0, FlashEv.readReg 1, FlashEv.writeReg IECS_DATA 0,
          FlashEv.cmd CMD_BOPS] ++ specFlashWriteEvs image ++
          [FlashEv.cmd CMD_AUTH, FlashEv.cmd CMD_PCYC]) := by
  unfold flashRetimer
  rw [flashWrites_eq image h4]
  simp

theorem countFlashCmd_append (c : Nat) : ∀ (l1 l2 : List FlashEv),
    countFlashCmd c (l1 ++ l2) = countFlashCmd c l1 + countFlashCmd c l2 := by
  intro l1
  induction l1 with
  | nil => intro l2; simp [countFlashCmd]
  | cons hd tl ih =>
    intro l2
    cases hd <;> simp [countFlashCmd, ih, Nat.add_assoc]

theorem countFlashCmd_map_wr (c r : Nat) : ∀ (ws : List Nat),
    countFlashCmd c (ws.map (FlashEv.writeReg r)) = 0 := by
  intro ws
  induction ws with
  | nil => simp [countFlashCmd]
  | cons w tl ih => simp [countFlashCmd, ih]

/-- The spec-shaped chunk trace from offset `i` holds exactly
`ceil((L - i) / 64)` write-block commands. -/
theorem countFlashCmd_spec_blkw (image : List Nat) : ∀ (f i : Nat),
    0 < f → image.length ≤ i + 64 * f → i < image.length →
    countFlashCmd CMD_BLKW (specWriteEvs image f i) = (image.length - i + 63) / 64 := by
  intro f
  induction f with
  | zero => intro i h1 h2 h3; omega
  | succ n ih =>
    intro i h1 h2 h3
    simp only [specWriteEvs, countFlashCmd_append, countFlashCmd_map_wr, countFlashCmd,
      eq_self_iff_true, if_true]
    by_cases hlt : i + 64 < image.length
    · rw [if_pos hlt, ih (i + 64) (by omega) (by omega) (by omega)]
      omega
    · rw [if_neg hlt]
      simp only [countFlashCmd]
      omega

/-- The spec-shaped chunk trace holds no command other than write-block. -/
theorem countFlashCmd_spec_other (image : List Nat) (c : Nat) (hc : c ≠ CMD_BLKW) :
    ∀ (f i : Nat), countFlashCmd c (specWriteEvs image f i) = 0 := by
  intro f
  induction f with
  | zero => intro i; simp [specWriteEvs, countFlashCmd]
  | succ n ih =>
    intro i
    simp only [specWriteEvs, countFlashCmd_append, countFlashCmd_map_wr, countFlashCmd]
    rw [if_neg (fun h => hc h.symm)]
    by_cases hlt : i + 64 < image.length
    · rw [if_pos hlt, ih]
    · rw [if_neg hlt]
      simp only [countFlashCmd]

/-- C2 fails as stated for a 1-byte image: in the run with every register
write and every command succeeding, the word assembly indexes out of
bounds before the first write-block command, so the run ends panicked
with 0 write-block commands instead of the claimed `ceil(1/64) = 1`, and
not in the Done state. -/
theorem claimC2_cex :
    (flashRetimer true true [0]).isDone = false
    ∧ countFlashCmd CMD_BLKW (flashRetimer true true [0]).trace = 0
    ∧ ((List.length [(0 : Nat)]) + 63) / 64 = 1 := by
  decide

/-- C2 amended: for every firmware image whose length `L` is a multiple
of 4 — the precondition the word assembly requires (see the C9 theorem) —
a run in which the identification reads and every register write and
command succeed ends in the Done state; its trace is exactly the two
identification reads, the offset write, one begin-operation command, the
spec-shaped chunk trace (each chunk's bytes written as up to 16
little-endian 32-bit words to the staging data register, then one
write-block command), then one authenticate and one power-cycle command;
the number of write-block commands is exactly `ceil(L / 64)`; the final
chunk holds `L mod 64` bytes (64 when 64 divides `L`); and for `L = 128`
the run issues exactly 1 offset-reset, 2 write-block, 1 authenticate and
1 power-cycle command. -/
theorem claimC2_amended (image : List Nat) (h4 : image.length % 4 = 0) :
    (flashRetimer true true image).isDone = true
    ∧ (flashRetimer true true image).trace =
        FlashEv.readReg 0 :: FlashEv.readReg 1 :: FlashEv.writeReg IECS_DATA 0 ::
          FlashEv.cmd CMD_BOPS ::
            (specFlashWriteEvs image ++ [FlashEv.cmd CMD_AUTH, FlashEv.cmd CMD_PCYC])
    ∧ countFlashCmd CMD_BLKW (flashRetimer true true image).trace =
        (image.length + 63) / 64
    ∧ (0 < image.length →
        ((image.drop (64 * ((image.length + 63) / 64 - 1))).take 64).length =
          (if image.length % 64 = 0 then 64 else image.length % 64))
    ∧ (image.length = 128 →
        countFlashCmd CMD_BOPS (flashRetimer true true image).trace = 1
        ∧ countFlashCmd CMD_BLKW (flashRetimer true true image).trace = 2
        ∧ countFlashCmd CMD_AUTH (flashRetimer true true image).trace = 1
        ∧ countFlashCmd CMD_PCYC (flashRetimer true true image).trace = 1) := by
  have hdone := flashRetimer_done image h4
  have htr : (flashRetimer true true image).trace =
      [FlashEv.readReg 0, FlashEv.readReg 1, FlashEv.writeReg IECS_DATA 0,
        FlashEv.cmd CMD_BOPS] ++ specFlashWriteEvs image ++
        [FlashEv.cmd CMD_AUTH, FlashEv.cmd CMD_PCYC] := by
    rw [hdone]
    rfl
  have hcount : ∀ c : Nat, c ≠ CMD_BLKW →
      countFlashCmd c (flashRetimer true true image).trace =
        countFlashCmd c
          [FlashEv.readReg 0, FlashEv.readReg 1, FlashEv.writeReg IECS_DATA 0,
            FlashEv.cmd CMD_BOPS] +
        countFlashCmd c [FlashEv.cmd CMD_AUTH, FlashEv.cmd CMD_PCYC] := by
    intro c hc
    rw [htr, countFlashCmd_append, countFlashCmd_append]
    have hmid : countFlashCmd c (specFlashWriteEvs image) = 0 := by
      unfold specFlashWriteEvs
      by_cases h0 : 0 < image.length
      · rw [if_pos h0]
        exact countFlashCmd_spec_other image c hc _ _
      · rw [if_neg h0]
        rfl
    rw [hmid]
    omega
  have hblkw : countFlashCmd CMD_BLKW (flashRetimer true true image).trace =
      (image.length + 63) / 64 := by
    rw [htr, countFlashCmd_append, countFlashCmd_append,
      show countFlashCmd CMD_BLKW
        [FlashEv.readReg 0, FlashEv.readReg 1, FlashEv.writeReg IECS_DATA 0,
          FlashEv.cmd CMD_BOPS] = 0 from by decide,
      show countFlashCmd CMD_BLKW [FlashEv.cmd CMD_AUTH, FlashEv.cmd CMD_PCYC] = 0
        from by decide]
    by_cases h0 : 0 < image.length
    · unfold specFlashWriteEvs
      rw [if_pos h0, countFlashCmd_spec_blkw image image.length 0 h0 (by omega) h0]
      omega
    · unfold specFlashWriteEvs
      rw [if_neg h0]
      simp only [countFlashCmd]
      omega
  refine ⟨by rw [hdone]; rfl, by rw [htr]; simp, hblkw, ?_, ?_⟩
  · intro h0
    simp only [List.length_take, List.length_drop]
    rw [Nat.min_def]
    split_ifs <;> omega
  · intro h128
    refine ⟨?_, ?_, ?_, ?_⟩
    · rw [hcount CMD_BOPS (by decide)]; decide
    · rw [hblkw, h128]
    · rw [hcount CMD_AUTH (by decide)]; decide
    · rw [hcount CMD_PCYC (by decide)]; decide

/-- Witness for the amended C2 at a concrete 128-byte image. -/
theorem claimC2_witness :
    (flashRetimer true true (List.replicate 128 0)).isDone = true :=
  (claimC2_amended (List.replicate 128 0) (by simp)).1

/-- C7 fails as stated: the two identification reads are read with the
`?` operator, so their failure gates progress. In the run where the
vendor-identification read fails, the update aborts at once — no
offset-reset (begin-operation) command is ever issued. -/
theorem claimC7_cex :
    (flashRetimer false true []).trace = [FlashEv.readReg 0]
    ∧ countFlashCmd CMD_BOPS (flashRetimer false true []).trace = 0
    ∧ (flashRetimer false true []).isDone = false := by
  decide

/-- C7 amended: the Identified phase reads the two identification
registers for diagnostics, but their outcomes do gate progress: the
update proceeds to the offset-reset phase (the offset write and the
begin-operation command open the trace right after the two reads) exactly
when both reads succeed; a failed vendor read aborts after one read and a
failed device read aborts after two reads, with no offset-reset command
issued. -/
theorem claimC7_amended : ∀ (image : List Nat) (deviceOk : Bool),
    ((flashRetimer true true image).trace.take 4 =
      [FlashEv.readReg 0, FlashEv.readReg 1, FlashEv.writeReg IECS_DATA 0,
       FlashEv.cmd CMD_BOPS])
    ∧ flashRetimer false deviceOk image = FlashOutcome.failed [FlashEv.readReg 0]
    ∧ flashRetimer true false image =
        FlashOutcome.failed [FlashEv.readReg 0, FlashEv.readReg 1] := by
  intro image deviceOk
  refine ⟨?_, by simp [flashRetimer], by simp [flashRetimer]⟩
  by_cases hw : (flashWrites image).2 <;>
    simp [flashRetimer, hw, FlashOutcome.trace]

end Usb4
